import Mathlib

/-!
Verification development for the SPH-1 repository (2D Position-Based
Fluids, MPI-partitioned).  The definitions below are shallow embeddings of
the C/C++ functions in `src/fluid.c` and `src/tunable_parameters.cpp`,
using exact arithmetic: rationals for the partition controller, the
out-of-bounds scan and the velocity clamp (no irrational operations
appear there), and reals for the kernel functions, the boundary
conditions and the lambda computation (which use pi and square roots).
-/

namespace SPH

/-! ### Partition controller (`tunable_parameters.cpp`) -/

/-- The fields of `TunableParameters` that the partition operations read
and write: the per-slot interval bounds `proc_starts`/`proc_ends`, the
slot count `num_compute_procs`, the active count
`num_compute_procs_active`, and `smoothing_radius`. -/
structure TunableParameters where
  proc_starts : List ℚ
  proc_ends : List ℚ
  num_compute_procs : ℕ
  num_compute_procs_active : ℕ
  smoothing_radius : ℚ
deriving DecidableEq

/-- Embedding of `TunableParameters::remove_partition` (tunable_parameters.cpp:232).
No-op when exactly one rank is active; otherwise the left neighbour's end
is extended to the removed (rightmost active) rank's end, the removed
rank's start and end are both set one unit beyond its old end, and the
active count is decremented.  Assignments are performed in source
order. -/
def remove_partition (t : TunableParameters) : TunableParameters :=
  if t.num_compute_procs_active = 1 then t
  else
    let removed_rank := t.num_compute_procs_active - 1
    let ends1 := t.proc_ends.set (removed_rank - 1) (t.proc_ends.getD removed_rank 0)
    let position := ends1.getD removed_rank 0 + 1
    { t with
      proc_ends := ends1.set removed_rank position
      proc_starts := t.proc_starts.set removed_rank position
      num_compute_procs_active := t.num_compute_procs_active - 1 }

/-- Embedding of `TunableParameters::add_partition` (tunable_parameters.cpp:251).
No-op when all slots are active, or when the last active interval is
shorter than 2.5 times the smoothing radius; otherwise the last active
interval is split at its midpoint, the right half going to the newly
activated slot, and the active count is incremented. -/
def add_partition (t : TunableParameters) : TunableParameters :=
  if t.num_compute_procs_active = t.num_compute_procs then t
  else
    let a := t.num_compute_procs_active
    let length := t.proc_ends.getD (a - 1) 0 - t.proc_starts.getD (a - 1) 0
    if length < 5/2 * t.smoothing_radius then t
    else
      let ends1 := t.proc_ends.set a (t.proc_ends.getD (a - 1) 0)
      let new_x := t.proc_starts.getD (a - 1) 0 + length * (1/2)
      { t with
        proc_ends := ends1.set (a - 1) new_x
        proc_starts := t.proc_starts.set a new_x
        num_compute_procs_active := a + 1 }

/-- A partition-table mutation: one of the two controller operations. -/
inductive PartitionOp where
  | add : PartitionOp
  | remove : PartitionOp
deriving DecidableEq

/-- Apply one partition operation. -/
def apply_op (t : TunableParameters) (op : PartitionOp) : TunableParameters :=
  match op with
  | PartitionOp.add => add_partition t
  | PartitionOp.remove => remove_partition t

/-- Apply a sequence of partition operations, left to right. -/
def apply_ops (t : TunableParameters) (ops : List PartitionOp) : TunableParameters :=
  ops.foldl apply_op t

/-- The partition invariant exactly as the claim states it: at least one
active rank, active count within the slot count, both bound arrays of
slot length, the first active interval starting at `min_x`, active
intervals contiguous (each end meets the next start) and ordered
(start at most end), and every inactive slot's interval disjoint from
`[min_x, max_x]`.  Contiguity together with the first start pinned to
`min_x` is exactly coverage of `[min_x, proc_ends[last_active]]`. -/
def ClaimInvariant (min_x max_x : ℚ) (t : TunableParameters) : Prop :=
  1 ≤ t.num_compute_procs_active ∧
  t.num_compute_procs_active ≤ t.num_compute_procs ∧
  t.proc_starts.length = t.num_compute_procs ∧
  t.proc_ends.length = t.num_compute_procs ∧
  t.proc_starts.getD 0 0 = min_x ∧
  (∀ i, i < t.num_compute_procs_active - 1 →
    t.proc_ends.getD i 0 = t.proc_starts.getD (i + 1) 0) ∧
  (∀ i, i < t.num_compute_procs_active →
    t.proc_starts.getD i 0 ≤ t.proc_ends.getD i 0) ∧
  (∀ i, i < t.num_compute_procs →
    t.num_compute_procs_active ≤ i →
    t.proc_ends.getD i 0 < min_x ∨ max_x < t.proc_starts.getD i 0)

instance (min_x max_x : ℚ) (t : TunableParameters) :
    Decidable (ClaimInvariant min_x max_x t) := by
  unfold ClaimInvariant; infer_instance

/-- The claim's invariant strengthened with the one clause the code
actually relies on: the last active interval ends exactly at `max_x`. -/
def FullInvariant (min_x max_x : ℚ) (t : TunableParameters) : Prop :=
  ClaimInvariant min_x max_x t ∧
  t.proc_ends.getD (t.num_compute_procs_active - 1) 0 = max_x

instance (min_x max_x : ℚ) (t : TunableParameters) :
    Decidable (FullInvariant min_x max_x t) := by
  unfold FullInvariant; infer_instance

/-! ### Kernel math (`fluid.c` 225-246) -/

/-- Embedding of `W` (fluid.c:225): 2D poly6-type smoothing kernel,
`C*(h*h-r*r)^3` with `C = 4/(pi*h^8)`, zero beyond the radius. -/
noncomputable def W (r h : ℝ) : ℝ :=
  if r > h then 0
  else
    let C := 4 / (Real.pi * h * h * h * h * h * h * h * h)
    C * (h * h - r * r) * (h * h - r * r) * (h * h - r * r)

/-- Embedding of `del_W` (fluid.c:236): spiky-kernel gradient magnitude,
`(-30/pi)/(h^5*(r+eps))*(h-r)^2` with `eps = 1e-6`, zero beyond the
radius. -/
noncomputable def del_W (r h : ℝ) : ℝ :=
  if r > h then 0
  else
    let eps : ℝ := 0.000001
    let coef := -30 / Real.pi
    let C := coef / (h * h * h * h * h * (r + eps))
    C * (h - r) * (h - r)

/-! ### Particle records -/

/-- The fields of `fluid_particle_t` read and written by
`boundaryConditions` and `calculate_lambda`, over the reals (these
functions involve square roots and pi). -/
structure fluid_particle where
  x_star : ℝ
  y_star : ℝ
  density : ℝ
  lambda : ℝ

/-- The fields of `fluid_particle_t` read and written by
`updateVelocity` and `identify_oob_particles`, over the rationals (these
functions use only field arithmetic and comparisons). -/
structure fluid_particleQ where
  x : ℚ
  y : ℚ
  x_star : ℚ
  y_star : ℚ
  v_x : ℚ
  v_y : ℚ
deriving DecidableEq

/-! ### Boundary conditions (`fluid.c` 625-668) -/

/-- The global AABB (`AABB_t`), min point at the axis origin in the
running program but kept general here. -/
structure AABB_t where
  min_x : ℝ
  max_x : ℝ
  min_y : ℝ
  max_y : ℝ

/-- The tunable mover fields read by `boundaryConditions`. -/
structure mover_params where
  mover_center_x : ℝ
  mover_center_y : ℝ
  mover_width : ℝ

/-- The mover radius: `mover_width*0.5f` (fluid.c:635). -/
noncomputable def mover_radius (mp : mover_params) : ℝ :=
  mp.mover_width * (1/2)

/-- Squared distance from the predicted position to the mover centre
(fluid.c:641). -/
noncomputable def mover_dist_sq (p : fluid_particle) (mp : mover_params) : ℝ :=
  (p.x_star - mp.mover_center_x) * (p.x_star - mp.mover_center_x) +
    (p.y_star - mp.mover_center_y) * (p.y_star - mp.mover_center_y)

open Classical in
/-- First block of `boundaryConditions` (fluid.c:639-651): a particle
strictly inside the mover circle (and off its centre) is pushed radially
out to the circle surface. -/
noncomputable def mover_repulsion (p : fluid_particle) (mp : mover_params) :
    fluid_particle :=
  let radius := mover_radius mp
  let d2 := mover_dist_sq p mp
  if d2 ≤ radius * radius ∧ d2 > 0 then
    let d := Real.sqrt d2
    let norm_x := (mp.mover_center_x - p.x_star) / d
    let norm_y := (mp.mover_center_y - p.y_star) / d
    let pen_dist := radius - d
    { p with
      x_star := p.x_star - pen_dist * norm_x
      y_star := p.y_star - pen_dist * norm_y }
  else p

open Classical in
/-- Second block of `boundaryConditions` (fluid.c:653-667): clamp the
predicted position to the global AABB, the max edges biased inward by
`0.001`.  A coordinate exactly equal to the max edge satisfies neither
strict test and is left unchanged. -/
noncomputable def aabb_clamp (p : fluid_particle) (boundary : AABB_t) :
    fluid_particle :=
  let x2 :=
    if p.x_star < boundary.min_x then boundary.min_x
    else if p.x_star > boundary.max_x then boundary.max_x - 0.001
    else p.x_star
  let y2 :=
    if p.y_star < boundary.min_y then boundary.min_y
    else if p.y_star > boundary.max_y then boundary.max_y - 0.001
    else p.y_star
  { p with x_star := x2, y_star := y2 }

/-- Embedding of `boundaryConditions` (fluid.c:625): mover repulsion followed by the
AABB clamp, in source order. -/
noncomputable def boundaryConditions (p : fluid_particle) (boundary : AABB_t)
    (mp : mover_params) : fluid_particle :=
  aabb_clamp (mover_repulsion p mp) boundary

/-! ### Lambda computation (`fluid.c` 425-478) -/

/-- Distance `r_mag` as computed in `calculate_lambda` (fluid.c:453): euclidean
distance between the predicted positions. -/
noncomputable def r_mag (p q : fluid_particle) : ℝ :=
  Real.sqrt ((p.x_star - q.x_star) * (p.x_star - q.x_star) +
    (p.y_star - q.y_star) * (p.y_star - q.y_star))

/-- The `k = i` gradient accumulation of `calculate_lambda`
(fluid.c:448-457), x component: `grad_x += grad*x_diff` over the
neighbour list. -/
noncomputable def lambda_grad_x (p : fluid_particle) (ns : List fluid_particle)
    (h : ℝ) : ℝ :=
  (ns.map (fun q => del_W (r_mag p q) h * (p.x_star - q.x_star))).sum

/-- Same accumulation, y component. -/
noncomputable def lambda_grad_y (p : fluid_particle) (ns : List fluid_particle)
    (h : ℝ) : ℝ :=
  (ns.map (fun q => del_W (r_mag p q) h * (p.y_star - q.y_star))).sum

/-- The full `sum_C` accumulation of `calculate_lambda` before scaling
(fluid.c:444-471): the squared `k = i` gradient plus each neighbour's
(`k = j`) squared gradient term. -/
noncomputable def lambda_sum_C (p : fluid_particle) (ns : List fluid_particle)
    (h : ℝ) : ℝ :=
  lambda_grad_x p ns h * lambda_grad_x p ns h +
    lambda_grad_y p ns h * lambda_grad_y p ns h +
    (ns.map (fun q =>
      del_W (r_mag p q) h * (p.x_star - q.x_star) *
          (del_W (r_mag p q) h * (p.x_star - q.x_star)) +
        del_W (r_mag p q) h * (p.y_star - q.y_star) *
          (del_W (r_mag p q) h * (p.y_star - q.y_star)))).sum

/-- The scale applied to `sum_C` (fluid.c:473), exactly as written in
the source: `(1.0f/rest_density*rest_density)`, which by C precedence is
`(1.0/rest_density) * rest_density`. -/
noncomputable def lambda_sum_scale (rest_density : ℝ) : ℝ :=
  1 / rest_density * rest_density

/-- Per-particle body of `calculate_lambda` (fluid.c:435-477): the
constraint violation `Ci = density/rest_density - 1`, the scaled
squared-gradient sum, and `lambda = -Ci/(sum_C + epsilon)` with
`epsilon = 1`. -/
noncomputable def calculate_lambda (p : fluid_particle)
    (ns : List fluid_particle) (rest_density h : ℝ) : fluid_particle :=
  let Ci := p.density / rest_density - 1
  let sum_C := lambda_sum_C p ns h * lambda_sum_scale rest_density
  let epsilon : ℝ := 1
  { p with lambda := -Ci / (sum_C + epsilon) }

/-- Modelled from the spec's words for claim C4: the standard PBF
double-sum denominator, the squared norm of the summed own gradient
`sum_j gradW(r_j,h)*(pos_i - pos_j)` plus each neighbour's individual
squared gradient term. -/
noncomputable def pbf_double_sum (p : fluid_particle)
    (ns : List fluid_particle) (h : ℝ) : ℝ :=
  ((ns.map (fun q => del_W (r_mag p q) h * (p.x_star - q.x_star))).sum) ^ 2 +
    ((ns.map (fun q => del_W (r_mag p q) h * (p.y_star - q.y_star))).sum) ^ 2 +
    (ns.map (fun q => (del_W (r_mag p q) h) ^ 2 *
      ((p.x_star - q.x_star) ^ 2 + (p.y_star - q.y_star) ^ 2))).sum

/-! ### Velocity reconstruction and clamp (`fluid.c` 580-622) -/

/-- Embedding of `checkVelocity` (fluid.c:580): clamp each velocity component
independently to `[-20, 20]`. -/
def checkVelocity (v_x v_y : ℚ) : ℚ × ℚ :=
  let v_max : ℚ := 20
  let vx := if v_x > v_max then v_max else if v_x < -v_max then -v_max else v_x
  let vy := if v_y > v_max then v_max else if v_y < -v_max then -v_max else v_y
  (vx, vy)

/-- Embedding of `updateVelocity` (fluid.c:594): reconstruct
`v = (pos_star - pos)/dt` and clamp. -/
def updateVelocity (p : fluid_particleQ) (dt : ℚ) : fluid_particleQ :=
  let v := checkVelocity ((p.x_star - p.x) / dt) ((p.y_star - p.y) / dt)
  { p with v_x := v.1, v_y := v.2 }

/-- Embedding of `updateVelocities` (fluid.c:609): apply `updateVelocity` to every
local particle and every halo particle. -/
def updateVelocities (locals halo : List fluid_particleQ) (dt : ℚ) :
    List fluid_particleQ :=
  (locals ++ halo).map (fun p => updateVelocity p dt)

/-- Modelled from the spec's words for claim C8: the independent
per-axis clamp of one velocity component to `[-20, 20]`. -/
def clamp_axis (v : ℚ) : ℚ :=
  if v > 20 then 20 else if v < -20 then -20 else v

/-! ### Out-of-bounds scan (`fluid.c` 520-545) -/

/-- The `oob_t` fields written by the scan: the two index queues and the
two counters. -/
structure oob_t where
  oob_pointer_indices_left : List ℕ
  number_oob_particles_left : ℕ
  oob_pointer_indices_right : List ℕ
  number_oob_particles_right : ℕ
deriving DecidableEq

/-- One iteration of the scan loop (fluid.c:533-541): a particle
strictly left of the rank start is appended to the left queue, else one
strictly right of the rank end to the right queue, bumping the matching
counter. -/
def identify_oob_step (ps : List fluid_particleQ) (node_start_x node_end_x : ℚ)
    (oob : oob_t) (i : ℕ) : oob_t :=
  let x := (ps.getD i ⟨0, 0, 0, 0, 0, 0⟩).x
  if x < node_start_x then
    { oob with
      oob_pointer_indices_left := oob.oob_pointer_indices_left ++ [i]
      number_oob_particles_left := oob.number_oob_particles_left + 1 }
  else if x > node_end_x then
    { oob with
      oob_pointer_indices_right := oob.oob_pointer_indices_right ++ [i]
      number_oob_particles_right := oob.number_oob_particles_right + 1 }
  else oob

/-- The scan of `identify_oob_particles` (fluid.c:529-541): counters
reset to zero, then every local particle index visited in order. -/
def identify_oob_particles (ps : List fluid_particleQ)
    (node_start_x node_end_x : ℚ) : oob_t :=
  (List.range ps.length).foldl (identify_oob_step ps node_start_x node_end_x)
    ⟨[], 0, [], 0⟩

/-! ### Helper lemmas about list reads and writes -/

theorem getD_set_ne (l : List ℚ) (i j : ℕ) (v d : ℚ) (h : i ≠ j) :
    (l.set i v).getD j d = l.getD j d := by
  rw [List.getD_eq_getElem?_getD, List.getD_eq_getElem?_getD, List.getElem?_set_ne h]

theorem getD_set_self (l : List ℚ) (i : ℕ) (v d : ℚ) (h : i < l.length) :
    (l.set i v).getD i d = v := by
  rw [List.getD_eq_getElem?_getD, List.getElem?_set_eq_of_lt v h]
  rfl

/-- Shape of `remove_partition` when at least two ranks are active: with
`a` the active count and `E` the rightmost active end, the left
neighbour's end becomes `E`, slot `a-1` is parked at `E + 1` on both
bounds, and the active count drops to `a - 1`. -/
theorem remove_partition_eq (t : TunableParameters)
    (ha : 2 ≤ t.num_compute_procs_active) :
    remove_partition t =
      { t with
        proc_ends :=
          (t.proc_ends.set (t.num_compute_procs_active - 2)
              (t.proc_ends.getD (t.num_compute_procs_active - 1) 0)).set
            (t.num_compute_procs_active - 1)
            (t.proc_ends.getD (t.num_compute_procs_active - 1) 0 + 1)
        proc_starts :=
          t.proc_starts.set (t.num_compute_procs_active - 1)
            (t.proc_ends.getD (t.num_compute_procs_active - 1) 0 + 1)
        num_compute_procs_active := t.num_compute_procs_active - 1 } := by
  have hne : t.num_compute_procs_active ≠ 1 := by omega
  unfold remove_partition
  rw [if_neg hne]
  have h2 : t.num_compute_procs_active - 1 - 1 = t.num_compute_procs_active - 2 := by
    omega
  simp only [h2, getD_set_ne _ _ _ _ _ (show
    t.num_compute_procs_active - 2 ≠ t.num_compute_procs_active - 1 from by omega)]

/-- Shape of `add_partition` when a slot is free and the last active
interval is long enough: with `a` the active count, `s`/`E` the last
active interval's bounds and `m = s + (E - s)/2` its midpoint, slot `a`
becomes `[m, E]`, slot `a-1` ends at `m`, and the active count grows to
`a + 1`. -/
theorem add_partition_eq (t : TunableParameters)
    (hfree : t.num_compute_procs_active ≠ t.num_compute_procs)
    (hlen : ¬ (t.proc_ends.getD (t.num_compute_procs_active - 1) 0 -
        t.proc_starts.getD (t.num_compute_procs_active - 1) 0 <
      5/2 * t.smoothing_radius)) :
    add_partition t =
      { t with
        proc_ends :=
          (t.proc_ends.set t.num_compute_procs_active
              (t.proc_ends.getD (t.num_compute_procs_active - 1) 0)).set
            (t.num_compute_procs_active - 1)
            (t.proc_starts.getD (t.num_compute_procs_active - 1) 0 +
              (t.proc_ends.getD (t.num_compute_procs_active - 1) 0 -
                t.proc_starts.getD (t.num_compute_procs_active - 1) 0) * (1/2))
        proc_starts :=
          t.proc_starts.set t.num_compute_procs_active
            (t.proc_starts.getD (t.num_compute_procs_active - 1) 0 +
              (t.proc_ends.getD (t.num_compute_procs_active - 1) 0 -
                t.proc_starts.getD (t.num_compute_procs_active - 1) 0) * (1/2))
        num_compute_procs_active := t.num_compute_procs_active + 1 } := by
  unfold add_partition
  rw [if_neg hfree, if_neg hlen]

/-- Lemma: `add_partition` is a no-op when the last active interval is too
short to split. -/
theorem add_partition_noop_short (t : TunableParameters)
    (hfree : t.num_compute_procs_active ≠ t.num_compute_procs)
    (hlen : t.proc_ends.getD (t.num_compute_procs_active - 1) 0 -
        t.proc_starts.getD (t.num_compute_procs_active - 1) 0 <
      5/2 * t.smoothing_radius) :
    add_partition t = t := by
  unfold add_partition
  rw [if_neg hfree, if_pos hlen]

/-- Lemma: `remove_partition` preserves the strengthened partition invariant. -/
theorem remove_preserves (min_x max_x : ℚ) (t : TunableParameters)
    (h : FullInvariant min_x max_x t) :
    FullInvariant min_x max_x (remove_partition t) := by
  obtain ⟨⟨h1, h2, h3, h4, h5, h6, h7, h8⟩, h9⟩ := h
  by_cases ha : t.num_compute_procs_active = 1
  · unfold remove_partition
    rw [if_pos ha]
    exact ⟨⟨h1, h2, h3, h4, h5, h6, h7, h8⟩, h9⟩
  · have ha2 : 2 ≤ t.num_compute_procs_active := by omega
    rw [remove_partition_eq t ha2]
    unfold FullInvariant ClaimInvariant at *
    dsimp only at *
    refine ⟨⟨by omega, by omega, ?_, ?_, ?_, ?_, ?_, ?_⟩, ?_⟩
    · rw [List.length_set]; exact h3
    · rw [List.length_set, List.length_set]; exact h4
    · rw [getD_set_ne _ _ _ _ _ (by omega)]
      exact h5
    · intro i hi
      rw [getD_set_ne _ _ _ _ _ (by omega), getD_set_ne _ _ _ _ _ (by omega),
        getD_set_ne _ _ _ _ _ (by omega)]
      exact h6 i (by omega)
    · intro i hi
      rw [getD_set_ne _ _ _ _ _ (by omega)]
      by_cases hc : i = t.num_compute_procs_active - 2
      · subst hc
        rw [getD_set_ne _ _ _ _ _ (by omega),
          getD_set_self _ _ _ _ (by rw [h4]; omega)]
        have e0 := h7 (t.num_compute_procs_active - 2) (by omega)
        have e1 := h6 (t.num_compute_procs_active - 2) (by omega)
        have e2 := h7 (t.num_compute_procs_active - 1) (by omega)
        rw [show t.num_compute_procs_active - 2 + 1 = t.num_compute_procs_active - 1
          from by omega] at e1
        linarith
      · rw [getD_set_ne _ _ _ _ _ (by omega), getD_set_ne _ _ _ _ _ (Ne.symm hc)]
        exact h7 i (by omega)
    · intro i hi hi2
      by_cases hc : i = t.num_compute_procs_active - 1
      · subst hc
        right
        rw [getD_set_self _ _ _ _ (by rw [h3]; omega)]
        linarith [h9]
      · rw [getD_set_ne _ _ _ _ _ (Ne.symm hc), getD_set_ne _ _ _ _ _ (Ne.symm hc),
          getD_set_ne _ _ _ _ _ (by omega)]
        exact h8 i hi (by omega)
    · rw [show t.num_compute_procs_active - 1 - 1 = t.num_compute_procs_active - 2
        from by omega,
        getD_set_ne _ _ _ _ _ (by omega),
        getD_set_self _ _ _ _ (by rw [h4]; omega)]
      exact h9

/-- Lemma: `add_partition` preserves the strengthened partition invariant. -/
theorem add_preserves (min_x max_x : ℚ) (t : TunableParameters)
    (h : FullInvariant min_x max_x t) :
    FullInvariant min_x max_x (add_partition t) := by
  obtain ⟨⟨h1, h2, h3, h4, h5, h6, h7, h8⟩, h9⟩ := h
  by_cases hfree : t.num_compute_procs_active = t.num_compute_procs
  · unfold add_partition
    rw [if_pos hfree]
    exact ⟨⟨h1, h2, h3, h4, h5, h6, h7, h8⟩, h9⟩
  by_cases hlen : t.proc_ends.getD (t.num_compute_procs_active - 1) 0 -
      t.proc_starts.getD (t.num_compute_procs_active - 1) 0 <
    5/2 * t.smoothing_radius
  · rw [add_partition_noop_short t hfree hlen]
    exact ⟨⟨h1, h2, h3, h4, h5, h6, h7, h8⟩, h9⟩
  · have hlt : t.num_compute_procs_active < t.num_compute_procs := by omega
    have hsE := h7 (t.num_compute_procs_active - 1) (by omega)
    rw [add_partition_eq t hfree hlen]
    unfold FullInvariant ClaimInvariant at *
    dsimp only at *
    refine ⟨⟨by omega, by omega, ?_, ?_, ?_, ?_, ?_, ?_⟩, ?_⟩
    · rw [List.length_set]; exact h3
    · rw [List.length_set, List.length_set]; exact h4
    · rw [getD_set_ne _ _ _ _ _ (by omega)]
      exact h5
    · intro i hi
      by_cases hc : i = t.num_compute_procs_active - 1
      · subst hc
        rw [getD_set_self _ _ _ _ (by rw [List.length_set, h4]; omega),
          show t.num_compute_procs_active - 1 + 1 = t.num_compute_procs_active
            from by omega,
          getD_set_self _ _ _ _ (by rw [h3]; omega)]
      · rw [getD_set_ne _ _ _ _ _ (Ne.symm hc), getD_set_ne _ _ _ _ _ (by omega),
          getD_set_ne _ _ _ _ _ (by omega)]
        exact h6 i (by omega)
    · intro i hi
      by_cases hc1 : i = t.num_compute_procs_active
      · subst hc1
        rw [getD_set_self _ _ _ _ (by rw [h3]; omega),
          getD_set_ne _ _ _ _ _ (by omega),
          getD_set_self _ _ _ _ (by rw [h4]; omega)]
        linarith
      by_cases hc2 : i = t.num_compute_procs_active - 1
      · subst hc2
        rw [getD_set_ne _ _ _ _ _ (by omega),
          getD_set_self _ _ _ _ (by rw [List.length_set, h4]; omega)]
        linarith
      · rw [getD_set_ne _ _ _ _ _ (Ne.symm hc1), getD_set_ne _ _ _ _ _ (Ne.symm hc2),
          getD_set_ne _ _ _ _ _ (Ne.symm hc1)]
        exact h7 i (by omega)
    · intro i hi hi2
      rw [getD_set_ne _ _ _ _ _ (by omega), getD_set_ne _ _ _ _ _ (by omega),
        getD_set_ne _ _ _ _ _ (by omega)]
      exact h8 i hi (by omega)
    · rw [show t.num_compute_procs_active + 1 - 1 = t.num_compute_procs_active
        from by omega,
        getD_set_ne _ _ _ _ _ (by omega),
        getD_set_self _ _ _ _ (by rw [h4]; omega)]
      exact h9

/-- Unfolding the OOB scan loop from an arbitrary accumulator: the left
queue collects, in visit order, the indices with `x` strictly below the
start; the right queue those failing that test with `x` strictly above
the end; each counter advances by the matching queue growth. -/
theorem oob_foldl (ps : List fluid_particleQ) (sx ex : ℚ) (l : List ℕ)
    (acc : oob_t) :
    l.foldl (identify_oob_step ps sx ex) acc =
      { oob_pointer_indices_left := acc.oob_pointer_indices_left ++
          l.filter (fun i => decide ((ps.getD i ⟨0, 0, 0, 0, 0, 0⟩).x < sx))
        number_oob_particles_left := acc.number_oob_particles_left +
          (l.filter (fun i =>
            decide ((ps.getD i ⟨0, 0, 0, 0, 0, 0⟩).x < sx))).length
        oob_pointer_indices_right := acc.oob_pointer_indices_right ++
          l.filter (fun i => decide (¬ (ps.getD i ⟨0, 0, 0, 0, 0, 0⟩).x < sx ∧
            ex < (ps.getD i ⟨0, 0, 0, 0, 0, 0⟩).x))
        number_oob_particles_right := acc.number_oob_particles_right +
          (l.filter (fun i =>
            decide (¬ (ps.getD i ⟨0, 0, 0, 0, 0, 0⟩).x < sx ∧
              ex < (ps.getD i ⟨0, 0, 0, 0, 0, 0⟩).x))).length } := by
  induction l generalizing acc with
  | nil => simp
  | cons a l ih =>
    rw [List.foldl_cons, ih]
    unfold identify_oob_step
    by_cases h1 : (ps.getD a ⟨0, 0, 0, 0, 0, 0⟩).x < sx
    · rw [if_pos h1, List.filter_cons_of_pos (by simpa using h1),
        List.filter_cons_of_neg
          (by simp only [decide_eq_true_eq]; exact fun hcon => hcon.1 h1)]
      simp only [oob_t.mk.injEq, List.length_cons]
      refine ⟨?_, ?_, ?_, ?_⟩ <;> first | omega | simp
    · rw [if_neg h1]
      by_cases h2 : (ps.getD a ⟨0, 0, 0, 0, 0, 0⟩).x > ex
      · rw [if_pos h2, List.filter_cons_of_neg (by simpa using h1),
          List.filter_cons_of_pos
            (by simp only [decide_eq_true_eq]; exact ⟨h1, h2⟩)]
        simp only [oob_t.mk.injEq, List.length_cons]
        refine ⟨?_, ?_, ?_, ?_⟩ <;> first | omega | simp
      · rw [if_neg h2, List.filter_cons_of_neg (by simpa using h1),
          List.filter_cons_of_neg
            (by simp only [decide_eq_true_eq]; exact fun hcon => h2 hcon.2)]

/-- The AABB clamp lands every position inside the box, provided each
axis of the box is at least 0.001 wide. -/
theorem aabb_clamp_mem (p : fluid_particle) (b : AABB_t)
    (hx : b.min_x + 0.001 ≤ b.max_x) (hy : b.min_y + 0.001 ≤ b.max_y) :
    b.min_x ≤ (aabb_clamp p b).x_star ∧ (aabb_clamp p b).x_star ≤ b.max_x ∧
    b.min_y ≤ (aabb_clamp p b).y_star ∧ (aabb_clamp p b).y_star ≤ b.max_y := by
  unfold aabb_clamp
  refine ⟨?_, ?_, ?_, ?_⟩ <;> simp only <;> split_ifs <;> linarith

/-! ### Claim theorems -/

/-- C6: `remove_partition` is a no-op (table and active count unchanged)
when exactly one rank is active; otherwise it extends the left
neighbour's end to the removed (rightmost active) rank's end, sets the
removed rank's start and end to the old end plus 1.0, and decrements the
active count by one. -/
theorem C6_remove_partition_cases (t : TunableParameters) :
    (t.num_compute_procs_active = 1 → remove_partition t = t) ∧
    (2 ≤ t.num_compute_procs_active →
      remove_partition t =
        { t with
          proc_ends :=
            (t.proc_ends.set (t.num_compute_procs_active - 2)
                (t.proc_ends.getD (t.num_compute_procs_active - 1) 0)).set
              (t.num_compute_procs_active - 1)
              (t.proc_ends.getD (t.num_compute_procs_active - 1) 0 + 1)
          proc_starts :=
            t.proc_starts.set (t.num_compute_procs_active - 1)
              (t.proc_ends.getD (t.num_compute_procs_active - 1) 0 + 1)
          num_compute_procs_active := t.num_compute_procs_active - 1 }) := by
  constructor
  · intro h1
    unfold remove_partition
    rw [if_pos h1]
  · intro h2
    exact remove_partition_eq t h2

/-- Witness for C6: a one-active-rank table is untouched, and on a
two-active-rank table the left interval absorbs the right one, whose
slot is parked at 11 = 10 + 1. -/
theorem C6_witness :
    remove_partition ⟨[0], [10], 1, 1, 1⟩ = ⟨[0], [10], 1, 1, 1⟩ ∧
    remove_partition ⟨[0, 4], [4, 10], 2, 2, 1⟩ = ⟨[0, 11], [10, 11], 2, 1, 1⟩ := by
  constructor
  · exact (C6_remove_partition_cases ⟨[0], [10], 1, 1, 1⟩).1 rfl
  · rw [(C6_remove_partition_cases ⟨[0, 4], [4, 10], 2, 2, 1⟩).2 (by norm_num)]
    norm_num [List.set]

/-- C7: `add_partition` is a no-op when all ranks are active, and when
the last active interval is shorter than 2.5 times the smoothing radius;
otherwise it splits the last active interval at its midpoint, giving the
right half to the newly activated rank, and increments the active
count. -/
theorem C7_add_partition_cases (t : TunableParameters) :
    (t.num_compute_procs_active = t.num_compute_procs → add_partition t = t) ∧
    (t.num_compute_procs_active ≠ t.num_compute_procs →
      t.proc_ends.getD (t.num_compute_procs_active - 1) 0 -
          t.proc_starts.getD (t.num_compute_procs_active - 1) 0 <
        5/2 * t.smoothing_radius →
      add_partition t = t) ∧
    (t.num_compute_procs_active ≠ t.num_compute_procs →
      ¬ (t.proc_ends.getD (t.num_compute_procs_active - 1) 0 -
          t.proc_starts.getD (t.num_compute_procs_active - 1) 0 <
        5/2 * t.smoothing_radius) →
      add_partition t =
        { t with
          proc_ends :=
            (t.proc_ends.set t.num_compute_procs_active
                (t.proc_ends.getD (t.num_compute_procs_active - 1) 0)).set
              (t.num_compute_procs_active - 1)
              ((t.proc_starts.getD (t.num_compute_procs_active - 1) 0 +
                t.proc_ends.getD (t.num_compute_procs_active - 1) 0) / 2)
          proc_starts :=
            t.proc_starts.set t.num_compute_procs_active
              ((t.proc_starts.getD (t.num_compute_procs_active - 1) 0 +
                t.proc_ends.getD (t.num_compute_procs_active - 1) 0) / 2)
          num_compute_procs_active := t.num_compute_procs_active + 1 }) := by
  refine ⟨?_, ?_, ?_⟩
  · intro h1
    unfold add_partition
    rw [if_pos h1]
  · intro h1 h2
    exact add_partition_noop_short t h1 h2
  · intro h1 h2
    rw [add_partition_eq t h1 h2,
      show t.proc_starts.getD (t.num_compute_procs_active - 1) 0 +
          (t.proc_ends.getD (t.num_compute_procs_active - 1) 0 -
            t.proc_starts.getD (t.num_compute_procs_active - 1) 0) * (1/2) =
        (t.proc_starts.getD (t.num_compute_procs_active - 1) 0 +
          t.proc_ends.getD (t.num_compute_procs_active - 1) 0) / 2 from by ring]

/-- Witness for C7: all three branches evaluated on concrete tables —
all-active no-op, too-short no-op (10 < 2.5*5), and a clean split of
[0, 10] at 5. -/
theorem C7_witness :
    add_partition ⟨[0], [10], 1, 1, 1⟩ = ⟨[0], [10], 1, 1, 1⟩ ∧
    add_partition ⟨[0, 20], [10, 20], 2, 1, 5⟩ = ⟨[0, 20], [10, 20], 2, 1, 5⟩ ∧
    add_partition ⟨[0, 20], [10, 20], 2, 1, 1⟩ = ⟨[0, 5], [5, 10], 2, 2, 1⟩ := by
  refine ⟨?_, ?_, ?_⟩
  · exact (C7_add_partition_cases ⟨[0], [10], 1, 1, 1⟩).1 rfl
  · exact (C7_add_partition_cases ⟨[0, 20], [10, 20], 2, 1, 5⟩).2.1
      (by norm_num) (by norm_num)
  · rw [(C7_add_partition_cases ⟨[0, 20], [10, 20], 2, 1, 1⟩).2.2
      (by norm_num) (by norm_num)]
    norm_num [List.set]

/-- C5: the scale factor `(1.0/rest_density)*rest_density` applied to
the accumulated squared-gradient sum equals 1 for every nonzero rest
density, so the lambda denominator is the raw, un-normalised gradient
sum plus the stabiliser; rest density enters lambda only through the
constraint violation. -/
theorem C5_lambda_scale_trivial (p : fluid_particle) (ns : List fluid_particle)
    (rest_density h : ℝ) (hrd : rest_density ≠ 0) :
    lambda_sum_scale rest_density = 1 ∧
    (calculate_lambda p ns rest_density h).lambda =
      -(p.density / rest_density - 1) / (lambda_sum_C p ns h + 1) := by
  have hs : lambda_sum_scale rest_density = 1 := by
    unfold lambda_sum_scale
    field_simp
  refine ⟨hs, ?_⟩
  unfold calculate_lambda
  rw [hs, mul_one]

/-- Witness for C5: the scale vanishes at rest density 2 and lambda for
a lone particle takes the raw-denominator form. -/
theorem C5_witness :
    lambda_sum_scale 2 = 1 ∧
    (calculate_lambda ⟨0, 0, 3, 0⟩ [] 2 1).lambda =
      -((3:ℝ) / 2 - 1) / (lambda_sum_C ⟨0, 0, 3, 0⟩ [] 1 + 1) := by
  have h := C5_lambda_scale_trivial ⟨0, 0, 3, 0⟩ [] 2 1 (by norm_num)
  exact ⟨h.1, h.2⟩

/-- C4: for nonzero rest density, `calculate_lambda` produces
`lambda = -Ci/(Sigma + 1)` where `Ci = density/rest_density - 1` and
`Sigma` is the standard PBF double sum: the squared norm of the summed
own gradient plus each neighbour's individual squared gradient term. -/
theorem C4_lambda_formula (p : fluid_particle) (ns : List fluid_particle)
    (rest_density h : ℝ) (hrd : rest_density ≠ 0) :
    (calculate_lambda p ns rest_density h).lambda =
      -(p.density / rest_density - 1) / (pbf_double_sum p ns h + 1) := by
  unfold calculate_lambda
  have hs : lambda_sum_scale rest_density = 1 := by
    unfold lambda_sum_scale
    field_simp
  rw [hs, mul_one]
  have hsum : lambda_sum_C p ns h = pbf_double_sum p ns h := by
    unfold lambda_sum_C pbf_double_sum lambda_grad_x lambda_grad_y
    rw [show ns.map (fun q =>
        del_W (r_mag p q) h * (p.x_star - q.x_star) *
            (del_W (r_mag p q) h * (p.x_star - q.x_star)) +
          del_W (r_mag p q) h * (p.y_star - q.y_star) *
            (del_W (r_mag p q) h * (p.y_star - q.y_star))) =
      ns.map (fun q => (del_W (r_mag p q) h) ^ 2 *
        ((p.x_star - q.x_star) ^ 2 + (p.y_star - q.y_star) ^ 2)) from
      List.map_congr_left (fun q _ => by ring)]
    ring
  rw [hsum]

/-- Witness for C4: the formula evaluated for a particle with one
neighbour at rest density 2. -/
theorem C4_witness :
    (calculate_lambda ⟨0, 0, 3, 0⟩ [⟨1, 0, 0, 0⟩] 2 1).lambda =
      -((3:ℝ) / 2 - 1) / (pbf_double_sum ⟨0, 0, 3, 0⟩ [⟨1, 0, 0, 0⟩] 1 + 1) :=
  C4_lambda_formula ⟨0, 0, 3, 0⟩ [⟨1, 0, 0, 0⟩] 2 1 (by norm_num)

/-- C10: for every positive smoothing radius, both kernels vanish
strictly beyond the radius, W is non-negative and monotonically
decreasing on [0, h], and W(0, h) is its maximum there. -/
theorem C10_kernel_shape (h : ℝ) (hh : 0 < h) :
    (∀ r, h < r → W r h = 0 ∧ del_W r h = 0) ∧
    (∀ r, 0 ≤ r → r ≤ h → 0 ≤ W r h) ∧
    (∀ r1 r2, 0 ≤ r1 → r1 ≤ r2 → r2 ≤ h → W r2 h ≤ W r1 h) ∧
    (∀ r, 0 ≤ r → r ≤ h → W r h ≤ W 0 h) := by
  have hpi := Real.pi_pos
  have hC : 0 ≤ 4 / (Real.pi * h * h * h * h * h * h * h * h) := by positivity
  have hzero : ∀ r, h < r → W r h = 0 ∧ del_W r h = 0 := by
    intro r hr
    constructor
    · unfold W
      rw [if_pos hr]
    · unfold del_W
      rw [if_pos hr]
  have hmono : ∀ r1 r2, 0 ≤ r1 → r1 ≤ r2 → r2 ≤ h → W r2 h ≤ W r1 h := by
    intro r1 r2 h0 h12 h2h
    have hn1 : ¬ r1 > h := by simp only [gt_iff_lt, not_lt]; linarith
    have hn2 : ¬ r2 > h := by simp only [gt_iff_lt, not_lt]; linarith
    unfold W
    rw [if_neg hn1, if_neg hn2]
    have hA1 : 0 ≤ h * h - r1 * r1 := by nlinarith
    have hA2 : 0 ≤ h * h - r2 * r2 := by nlinarith
    have hA12 : h * h - r2 * r2 ≤ h * h - r1 * r1 := by nlinarith
    have cube : (h * h - r2 * r2) * (h * h - r2 * r2) * (h * h - r2 * r2) ≤
        (h * h - r1 * r1) * (h * h - r1 * r1) * (h * h - r1 * r1) := by
      calc (h * h - r2 * r2) * (h * h - r2 * r2) * (h * h - r2 * r2)
          = (h * h - r2 * r2) ^ 3 := by ring
        _ ≤ (h * h - r1 * r1) ^ 3 := pow_le_pow_left₀ hA2 hA12 3
        _ = (h * h - r1 * r1) * (h * h - r1 * r1) * (h * h - r1 * r1) := by ring
    calc 4 / (Real.pi * h * h * h * h * h * h * h * h) * (h * h - r2 * r2) *
          (h * h - r2 * r2) * (h * h - r2 * r2)
        = 4 / (Real.pi * h * h * h * h * h * h * h * h) *
            ((h * h - r2 * r2) * (h * h - r2 * r2) * (h * h - r2 * r2)) := by ring
      _ ≤ 4 / (Real.pi * h * h * h * h * h * h * h * h) *
            ((h * h - r1 * r1) * (h * h - r1 * r1) * (h * h - r1 * r1)) :=
          mul_le_mul_of_nonneg_left cube hC
      _ = 4 / (Real.pi * h * h * h * h * h * h * h * h) * (h * h - r1 * r1) *
            (h * h - r1 * r1) * (h * h - r1 * r1) := by ring
  have hnonneg : ∀ r, 0 ≤ r → r ≤ h → 0 ≤ W r h := by
    intro r h0 hrh
    have hn : ¬ r > h := by simp only [gt_iff_lt, not_lt]; linarith
    unfold W
    rw [if_neg hn]
    have hA : 0 ≤ h * h - r * r := by nlinarith
    have := mul_nonneg (mul_nonneg (mul_nonneg hC hA) hA) hA
    exact this
  exact ⟨hzero, hnonneg, hmono, fun r h0 hrh => hmono 0 r le_rfl h0 hrh⟩

/-- Witness for C10: both kernels vanish at r = 2 > h = 1, W is
non-negative at 1/2, larger distances give smaller W, and W(0,1)
dominates W(1/2,1). -/
theorem C10_witness :
    W 2 1 = 0 ∧ del_W 2 1 = 0 ∧ (0:ℝ) ≤ W (1/2) 1 ∧
    W (3/4) 1 ≤ W (1/2) 1 ∧ W (1/2) 1 ≤ W 0 1 := by
  have h := C10_kernel_shape 1 (by norm_num)
  exact ⟨(h.1 2 (by norm_num)).1, (h.1 2 (by norm_num)).2,
    h.2.1 (1/2) (by norm_num) (by norm_num),
    h.2.2.1 (1/2) (3/4) (by norm_num) (by norm_num) (by norm_num),
    h.2.2.2 (1/2) (by norm_num) (by norm_num)⟩

/-- C8: velocity reconstruction `v = (pos_star - pos)/dt` runs over
local AND halo particles, and the clamp is per-axis: a component beyond
plus/minus 20 commits as exactly plus/minus 20 while the orthogonal
component is clamped independently, unchanged by that axis's clamp. -/
theorem C8_velocity_clamp (locals halo : List fluid_particleQ) (dt v_x v_y : ℚ) :
    updateVelocities locals halo dt = (locals ++ halo).map (fun p =>
      { p with
        v_x := clamp_axis ((p.x_star - p.x) / dt)
        v_y := clamp_axis ((p.y_star - p.y) / dt) }) ∧
    (20 < v_x →
      (checkVelocity v_x v_y).1 = 20 ∧ (checkVelocity v_x v_y).2 = clamp_axis v_y) ∧
    (v_x < -20 →
      (checkVelocity v_x v_y).1 = -20 ∧ (checkVelocity v_x v_y).2 = clamp_axis v_y) ∧
    (20 < v_y →
      (checkVelocity v_x v_y).2 = 20 ∧ (checkVelocity v_x v_y).1 = clamp_axis v_x) ∧
    (v_y < -20 →
      (checkVelocity v_x v_y).2 = -20 ∧ (checkVelocity v_x v_y).1 = clamp_axis v_x) := by
  have hcv : ∀ a b : ℚ, checkVelocity a b = (clamp_axis a, clamp_axis b) := by
    intro a b
    rfl
  have hpos : ∀ v : ℚ, 20 < v → clamp_axis v = 20 := by
    intro v hv
    unfold clamp_axis
    rw [if_pos hv]
  have hneg : ∀ v : ℚ, v < -20 → clamp_axis v = -20 := by
    intro v hv
    unfold clamp_axis
    rw [if_neg (by simp only [gt_iff_lt, not_lt]; linarith), if_pos hv]
  refine ⟨rfl, ?_, ?_, ?_, ?_⟩
  · intro hx
    rw [hcv]
    exact ⟨hpos v_x hx, rfl⟩
  · intro hx
    rw [hcv]
    exact ⟨hneg v_x hx, rfl⟩
  · intro hy
    rw [hcv]
    exact ⟨hpos v_y hy, rfl⟩
  · intro hy
    rw [hcv]
    exact ⟨hneg v_y hy, rfl⟩

/-- C1 (amended): the claimed partition invariant is preserved by every
sequence of `add_partition`/`remove_partition` operations once it is
strengthened with the clause the code relies on — the last active
interval ends exactly at `max_x`.  Without that clause the claim fails
(see the counterexample): `remove_partition` parks a removed rank only
one unit beyond its own old end, which is outside `[min_x, max_x]` only
because the rightmost active end sits at `max_x`. -/
theorem C1_partition_invariant_preserved (min_x max_x : ℚ)
    (ops : List PartitionOp) (t : TunableParameters)
    (h : FullInvariant min_x max_x t) :
    FullInvariant min_x max_x (apply_ops t ops) := by
  induction ops generalizing t with
  | nil => exact h
  | cons op rest ih =>
    show FullInvariant min_x max_x (apply_ops (apply_op t op) rest)
    cases op with
    | add => exact ih (add_partition t) (add_preserves min_x max_x t h)
    | remove => exact ih (remove_partition t) (remove_preserves min_x max_x t h)

/-- Counterexample to C1 as stated: the table with two active intervals
[0,1], [1,2] inside the global interval [0,10] satisfies every clause of
the claimed invariant, yet after one `remove_partition` the removed
rank's interval sits at [3,3] — inside `[min_x, max_x]`, violating the
inactive-interval clause. -/
theorem C1_counterexample :
    ClaimInvariant 0 10 ⟨[0, 1], [1, 2], 2, 2, 1⟩ ∧
    ¬ ClaimInvariant 0 10
      (apply_ops ⟨[0, 1], [1, 2], 2, 2, 1⟩ [PartitionOp.remove]) := by
  have hres : apply_ops ⟨[0, 1], [1, 2], 2, 2, 1⟩ [PartitionOp.remove] =
      ⟨[0, 3], [2, 3], 2, 1, 1⟩ := by
    show remove_partition ⟨[0, 1], [1, 2], 2, 2, 1⟩ = ⟨[0, 3], [2, 3], 2, 1, 1⟩
    rw [remove_partition_eq _ (by norm_num)]
    norm_num [List.set]
  constructor
  · refine ⟨by norm_num, by norm_num, by norm_num, by norm_num, by norm_num,
      ?_, ?_, ?_⟩
    · intro i hi
      norm_num at hi
      subst hi
      norm_num
    · intro i hi
      norm_num at hi
      interval_cases i <;> norm_num
    · intro i hi hi2
      norm_num at hi hi2
      omega
  · rw [hres]
    intro hcl
    obtain ⟨-, -, -, -, -, -, -, h8⟩ := hcl
    have h := h8 1 (by norm_num) (by norm_num)
    norm_num at h

/-- Witness for C1: the strengthened invariant evaluated before and
after a concrete add-then-remove sequence on a one-active-rank table
covering [0,10] with the spare slot parked at 11. -/
theorem C1_witness :
    FullInvariant 0 10
      (apply_ops ⟨[0, 11], [10, 11], 2, 1, 1⟩
        [PartitionOp.add, PartitionOp.remove]) := by
  refine C1_partition_invariant_preserved 0 10 _ _ ⟨⟨by norm_num, by norm_num,
    by norm_num, by norm_num, by norm_num, ?_, ?_, ?_⟩, by norm_num⟩
  · intro i hi
    norm_num at hi
  · intro i hi
    norm_num at hi
    subst hi
    norm_num
  · intro i hi hi2
    norm_num at hi hi2
    have : i = 1 := by omega
    subst this
    norm_num

/-- Witness for C8: a local particle whose reconstructed x velocity 50
commits as exactly 20 with the y component untouched, and the clamp
applied directly to (25, 3) and (3, -25). -/
theorem C8_witness :
    updateVelocities [⟨0, 0, 50, 3, 0, 0⟩] [] 1 = [⟨0, 0, 50, 3, 20, 3⟩] ∧
    checkVelocity 25 3 = (20, 3) ∧ checkVelocity 3 (-25) = (3, -20) := by
  refine ⟨?_, ?_, ?_⟩
  · rw [(C8_velocity_clamp [⟨0, 0, 50, 3, 0, 0⟩] [] 1 0 0).1]
    norm_num [clamp_axis]
  · have h := (C8_velocity_clamp [] [] 1 25 3).2.1 (by norm_num)
    have : checkVelocity 25 3 = ((checkVelocity 25 3).1, (checkVelocity 25 3).2) := rfl
    rw [this, h.1, h.2]
    norm_num [clamp_axis]
  · have h := (C8_velocity_clamp [] [] 1 3 (-25)).2.2.2.2 (by norm_num)
    have : checkVelocity 3 (-25) = ((checkVelocity 3 (-25)).1, (checkVelocity 3 (-25)).2) := rfl
    rw [this, h.1, h.2]
    norm_num [clamp_axis]

/-- C9: after the scan (given an interval-shaped rank, start at most
end), the left queue is exactly the increasing list of indices with `x`
strictly below the start, the right queue exactly those with `x`
strictly above the end, each recorded count equals its queue length, and
an index whose `x` equals either boundary exactly appears in neither
queue. -/
theorem C9_oob_scan (ps : List fluid_particleQ) (node_start_x node_end_x : ℚ)
    (hse : node_start_x ≤ node_end_x) :
    (identify_oob_particles ps node_start_x node_end_x).oob_pointer_indices_left =
      (List.range ps.length).filter
        (fun i => decide ((ps.getD i ⟨0, 0, 0, 0, 0, 0⟩).x < node_start_x)) ∧
    (identify_oob_particles ps node_start_x node_end_x).number_oob_particles_left =
      (identify_oob_particles ps node_start_x node_end_x).oob_pointer_indices_left.length ∧
    (identify_oob_particles ps node_start_x node_end_x).oob_pointer_indices_right =
      (List.range ps.length).filter
        (fun i => decide (node_end_x < (ps.getD i ⟨0, 0, 0, 0, 0, 0⟩).x)) ∧
    (identify_oob_particles ps node_start_x node_end_x).number_oob_particles_right =
      (identify_oob_particles ps node_start_x node_end_x).oob_pointer_indices_right.length ∧
    List.Sorted (· < ·)
      (identify_oob_particles ps node_start_x node_end_x).oob_pointer_indices_left ∧
    List.Sorted (· < ·)
      (identify_oob_particles ps node_start_x node_end_x).oob_pointer_indices_right ∧
    (∀ i, (ps.getD i ⟨0, 0, 0, 0, 0, 0⟩).x = node_start_x ∨
        (ps.getD i ⟨0, 0, 0, 0, 0, 0⟩).x = node_end_x →
      i ∉ (identify_oob_particles ps node_start_x node_end_x).oob_pointer_indices_left ∧
      i ∉ (identify_oob_particles ps node_start_x node_end_x).oob_pointer_indices_right) := by
  have hpred : ∀ l : List ℕ,
      l.filter (fun i => decide (¬ (ps.getD i ⟨0, 0, 0, 0, 0, 0⟩).x < node_start_x ∧
        node_end_x < (ps.getD i ⟨0, 0, 0, 0, 0, 0⟩).x)) =
      l.filter (fun i => decide (node_end_x < (ps.getD i ⟨0, 0, 0, 0, 0, 0⟩).x)) := by
    intro l
    apply List.filter_congr
    intro i _
    simp only [decide_eq_decide]
    constructor
    · rintro ⟨-, hgt⟩
      exact hgt
    · intro hgt
      exact ⟨by simp only [not_lt]; linarith, hgt⟩
  have hfold : identify_oob_particles ps node_start_x node_end_x =
      { oob_pointer_indices_left := (List.range ps.length).filter
          (fun i => decide ((ps.getD i ⟨0, 0, 0, 0, 0, 0⟩).x < node_start_x))
        number_oob_particles_left := ((List.range ps.length).filter
          (fun i => decide ((ps.getD i ⟨0, 0, 0, 0, 0, 0⟩).x < node_start_x))).length
        oob_pointer_indices_right := (List.range ps.length).filter
          (fun i => decide (node_end_x < (ps.getD i ⟨0, 0, 0, 0, 0, 0⟩).x))
        number_oob_particles_right := ((List.range ps.length).filter
          (fun i => decide (node_end_x < (ps.getD i ⟨0, 0, 0, 0, 0, 0⟩).x))).length } := by
    unfold identify_oob_particles
    rw [oob_foldl, hpred]
    simp
  rw [hfold]
  refine ⟨rfl, rfl, rfl, rfl,
    List.Pairwise.sublist (List.filter_sublist _) (List.pairwise_lt_range _),
    List.Pairwise.sublist (List.filter_sublist _) (List.pairwise_lt_range _),
    ?_⟩
  intro i hi
  constructor
  · intro hmem
    obtain ⟨-, hp⟩ := List.mem_filter.1 hmem
    rw [decide_eq_true_eq] at hp
    rcases hi with h | h <;> rw [h] at hp <;> linarith
  · intro hmem
    obtain ⟨-, hp⟩ := List.mem_filter.1 hmem
    rw [decide_eq_true_eq] at hp
    rcases hi with h | h <;> rw [h] at hp <;> linarith

/-- Witness for C9: three particles at x = -1, 5, 20 on the rank
interval [0, 10]: index 0 goes left, index 2 goes right, both counts
are 1, and a particle exactly on a boundary joins neither queue. -/
theorem C9_witness :
    (identify_oob_particles
      [⟨-1, 0, 0, 0, 0, 0⟩, ⟨5, 0, 0, 0, 0, 0⟩, ⟨20, 0, 0, 0, 0, 0⟩] 0 10) =
      ⟨[0], 1, [2], 1⟩ := by
  have h := C9_oob_scan
    [⟨-1, 0, 0, 0, 0, 0⟩, ⟨5, 0, 0, 0, 0, 0⟩, ⟨20, 0, 0, 0, 0, 0⟩] 0 10
    (by norm_num)
  obtain ⟨h1, h2, h3, h4, -⟩ := h
  have e1 : (identify_oob_particles
      [⟨-1, 0, 0, 0, 0, 0⟩, ⟨5, 0, 0, 0, 0, 0⟩, ⟨20, 0, 0, 0, 0, 0⟩]
      0 10).oob_pointer_indices_left = [0] := by
    rw [h1]
    norm_num [List.range_succ, List.filter_append, List.filter_cons, List.getD]
  have e2 : (identify_oob_particles
      [⟨-1, 0, 0, 0, 0, 0⟩, ⟨5, 0, 0, 0, 0, 0⟩, ⟨20, 0, 0, 0, 0, 0⟩]
      0 10).oob_pointer_indices_right = [2] := by
    rw [h3]
    norm_num [List.range_succ, List.filter_append, List.filter_cons, List.getD]
  have e3 := h2
  have e4 := h4
  rw [e1] at e3
  rw [e2] at e4
  cases hres : identify_oob_particles
      [⟨-1, 0, 0, 0, 0, 0⟩, ⟨5, 0, 0, 0, 0, 0⟩, ⟨20, 0, 0, 0, 0, 0⟩] 0 10 with
  | mk a b c d =>
    rw [hres] at e1 e2 e3 e4
    simp only at e1 e2 e3 e4
    simp [e1, e2, e3, e4]

/-- C3 (amended): after `boundaryConditions` the position lies inside
the global AABB (given each axis at least 0.001 wide), and it can sit on
a max edge only when the position entering the clamp is already exactly
on that edge — the clamp tests are strict, so the claimed strict
inequality `x_star < max_x` fails exactly for such inputs (see the
counterexample). -/
theorem C3_clamped_in_aabb (p : fluid_particle) (b : AABB_t)
    (mp : mover_params) (hx : b.min_x + 0.001 ≤ b.max_x)
    (hy : b.min_y + 0.001 ≤ b.max_y) :
    b.min_x ≤ (boundaryConditions p b mp).x_star ∧
    (boundaryConditions p b mp).x_star ≤ b.max_x ∧
    b.min_y ≤ (boundaryConditions p b mp).y_star ∧
    (boundaryConditions p b mp).y_star ≤ b.max_y ∧
    ((boundaryConditions p b mp).x_star = b.max_x →
      (mover_repulsion p mp).x_star = b.max_x) ∧
    ((boundaryConditions p b mp).y_star = b.max_y →
      (mover_repulsion p mp).y_star = b.max_y) := by
  have hmem := aabb_clamp_mem (mover_repulsion p mp) b hx hy
  refine ⟨hmem.1, hmem.2.1, hmem.2.2.1, hmem.2.2.2, ?_, ?_⟩
  · unfold boundaryConditions aabb_clamp
    simp only
    split_ifs with h1 h2
    · intro he
      linarith
    · intro he
      linarith
    · exact fun he => he
  · unfold boundaryConditions aabb_clamp
    simp only
    split_ifs with h1 h2
    · intro he
      linarith
    · intro he
      linarith
    · exact fun he => he

/-- Counterexample to C3 as stated: a particle already exactly on the
max-x edge (x_star = 10 = max_x, mover far away) passes both strict
clamp tests unchanged, so the committed position is not strictly inside
the max edge. -/
theorem C3_counterexample :
    ¬ ((boundaryConditions ⟨10, 3, 0, 0⟩ ⟨0, 10, 0, 10⟩ ⟨20, 20, 4⟩).x_star <
      (AABB_t.mk 0 10 0 10).max_x) := by
  have he : (boundaryConditions ⟨10, 3, 0, 0⟩ ⟨0, 10, 0, 10⟩ ⟨20, 20, 4⟩).x_star
      = 10 := by
    unfold boundaryConditions mover_repulsion aabb_clamp mover_dist_sq
      mover_radius
    norm_num
  rw [he]
  norm_num

/-- Witness for C3 (amended): the bounds evaluated for a particle
predicted at (15, -3) in the box [0,10] x [0,10] with the mover far
away. -/
theorem C3_witness :
    (0:ℝ) ≤ (boundaryConditions ⟨15, -3, 0, 0⟩ ⟨0, 10, 0, 10⟩ ⟨20, 20, 4⟩).x_star ∧
    (boundaryConditions ⟨15, -3, 0, 0⟩ ⟨0, 10, 0, 10⟩ ⟨20, 20, 4⟩).x_star ≤ 10 ∧
    (0:ℝ) ≤ (boundaryConditions ⟨15, -3, 0, 0⟩ ⟨0, 10, 0, 10⟩ ⟨20, 20, 4⟩).y_star ∧
    (boundaryConditions ⟨15, -3, 0, 0⟩ ⟨0, 10, 0, 10⟩ ⟨20, 20, 4⟩).y_star ≤ 10 := by
  have h := C3_clamped_in_aabb ⟨15, -3, 0, 0⟩ ⟨0, 10, 0, 10⟩ ⟨20, 20, 4⟩
    (by norm_num) (by norm_num)
  exact ⟨h.1, h.2.1, h.2.2.1, h.2.2.2.1⟩

/-- C2 (amended): `boundaryConditions` is idempotent for every input
whose once-clamped position is not strictly inside the mover circle
(off-centre), given a non-negative mover width and an AABB at least
0.001 wide per axis.  In general the claim fails: the clamp can move a
repelled particle back inside the mover circle, so a second application
repels it again (see the counterexample). -/
theorem C2_boundary_idempotent_outside_mover (p : fluid_particle)
    (b : AABB_t) (mp : mover_params) (hx : b.min_x + 0.001 ≤ b.max_x)
    (hy : b.min_y + 0.001 ≤ b.max_y) (hw : 0 ≤ mp.mover_width)
    (hq : ¬ (mover_dist_sq (boundaryConditions p b mp) mp <
        mover_radius mp * mover_radius mp ∧
      0 < mover_dist_sq (boundaryConditions p b mp) mp)) :
    boundaryConditions (boundaryConditions p b mp) b mp =
      boundaryConditions p b mp := by
  have hmem : b.min_x ≤ (boundaryConditions p b mp).x_star ∧
      (boundaryConditions p b mp).x_star ≤ b.max_x ∧
      b.min_y ≤ (boundaryConditions p b mp).y_star ∧
      (boundaryConditions p b mp).y_star ≤ b.max_y :=
    aabb_clamp_mem (mover_repulsion p mp) b hx hy
  set q := boundaryConditions p b mp with hqdef
  have hmov : mover_repulsion q mp = q := by
    simp only [mover_repulsion]
    by_cases hc : mover_dist_sq q mp ≤ mover_radius mp * mover_radius mp ∧
        mover_dist_sq q mp > 0
    · rw [if_pos hc]
      have heq : mover_dist_sq q mp = mover_radius mp * mover_radius mp := by
        rcases hc with ⟨hle, hpos⟩
        by_contra hne
        exact hq ⟨lt_of_le_of_ne hle hne, hpos⟩
      have hr : 0 ≤ mover_radius mp := by
        unfold mover_radius
        linarith
      have hd : Real.sqrt (mover_dist_sq q mp) = mover_radius mp := by
        rw [heq, Real.sqrt_mul_self hr]
      simp only [hd, sub_self, zero_mul, sub_zero]
    · rw [if_neg hc]
  have hclamp : aabb_clamp q b = q := by
    obtain ⟨m1, m2, m3, m4⟩ := hmem
    unfold aabb_clamp
    simp only
    rw [if_neg (not_lt.2 m1), if_neg (not_lt.2 m2), if_neg (not_lt.2 m3),
      if_neg (not_lt.2 m4)]
  show aabb_clamp (mover_repulsion q mp) b = q
  rw [hmov, hclamp]

/-- Counterexample to C2 as stated: for the box [0,10] x [0,10] and a
mover of radius 2 centred at (0.9, 5), the input (0.1, 4.4) is repelled
to (-0.7, 3.8), which the clamp moves to (0, 3.8) — back inside the
mover circle, at distance 1.5 from its centre — so a second application
repels it again, to (0, 3.4). -/
theorem C2_counterexample :
    boundaryConditions
        (boundaryConditions ⟨0.1, 4.4, 0, 0⟩ ⟨0, 10, 0, 10⟩ ⟨0.9, 5, 4⟩)
        ⟨0, 10, 0, 10⟩ ⟨0.9, 5, 4⟩ ≠
      boundaryConditions ⟨0.1, 4.4, 0, 0⟩ ⟨0, 10, 0, 10⟩ ⟨0.9, 5, 4⟩ := by
  have h1 : boundaryConditions ⟨0.1, 4.4, 0, 0⟩ ⟨0, 10, 0, 10⟩ ⟨0.9, 5, 4⟩ =
      ⟨0, 3.8, 0, 0⟩ := by
    unfold boundaryConditions mover_repulsion aabb_clamp mover_dist_sq
      mover_radius
    norm_num [Real.sqrt_one]
  have h2 : boundaryConditions ⟨0, 3.8, 0, 0⟩ ⟨0, 10, 0, 10⟩ ⟨0.9, 5, 4⟩ =
      ⟨0, 3.4, 0, 0⟩ := by
    have s9 : Real.sqrt 9 = 3 := by
      rw [show (9:ℝ) = 3 ^ 2 by norm_num, Real.sqrt_sq (by norm_num : (0:ℝ) ≤ 3)]
    have s4 : Real.sqrt 4 = 2 := by
      rw [show (4:ℝ) = 2 ^ 2 by norm_num, Real.sqrt_sq (by norm_num : (0:ℝ) ≤ 2)]
    unfold boundaryConditions mover_repulsion aabb_clamp mover_dist_sq
      mover_radius
    norm_num [s9, s4]
  rw [h1, h2]
  intro hcon
  have := congrArg fluid_particle.y_star hcon
  simp only at this
  norm_num at this

/-- Witness for C2 (amended): a particle predicted far outside the box,
with the mover far away; one application clamps it to (9.999, 9.999) and
a second application leaves it there. -/
theorem C2_witness :
    boundaryConditions
        (boundaryConditions ⟨50, 50, 0, 0⟩ ⟨0, 10, 0, 10⟩ ⟨20, 20, 4⟩)
        ⟨0, 10, 0, 10⟩ ⟨20, 20, 4⟩ =
      boundaryConditions ⟨50, 50, 0, 0⟩ ⟨0, 10, 0, 10⟩ ⟨20, 20, 4⟩ := by
  refine C2_boundary_idempotent_outside_mover ⟨50, 50, 0, 0⟩ ⟨0, 10, 0, 10⟩
    ⟨20, 20, 4⟩ (by norm_num) (by norm_num) (by norm_num) ?_
  have hb : boundaryConditions ⟨50, 50, 0, 0⟩ ⟨0, 10, 0, 10⟩ ⟨20, 20, 4⟩ =
      ⟨9.999, 9.999, 0, 0⟩ := by
    unfold boundaryConditions mover_repulsion aabb_clamp mover_dist_sq
      mover_radius
    norm_num
  rw [hb]
  unfold mover_dist_sq mover_radius
  norm_num

end SPH
